import Mathlib

/-
Verification of the single-variable constant-propagation dataflow analysis
from clang/unittests/Analysis/FlowSensitive/SingleVarConstantPropagationTest.cpp.

The lattice (`ConstantPropagationLattice`), its `join`, and the transfer
function are embedded directly from the source.  The statement classification
performed by the AST matcher (an external library facility) is represented by
the inductive type `Stmt`, whose constructors correspond one-to-one to the
dispatch branches of `ConstantPropagationAnalysis::transfer`: a declaration of
an integer variable with an initializer (carrying the initializer's constant
value when `EvaluateAsInt` succeeds), a simple assignment `var = expr`
(likewise carrying the RHS's constant value when it evaluates), a compound
assignment with a variable LHS, and every other statement (no match).
-/

namespace SingleVarConstProp

/-- Payload of a known lattice element: a variable identity and its value.
In the source, `Var` is a `const VarDecl *` where a null pointer marks "top";
we model pointers as `Option Nat`, with `none` for the null pointer.  The
value is the `int64_t` extracted by `getExtValue`, modelled as `Int`. -/
structure VarValue where
  var : Option Nat
  value : Int
  deriving DecidableEq, Repr

/-- The single-variable constant-propagation lattice: `Data = none` is
"bottom", `Data = some {var := none, ..}` is "top", and `Data` holding a real
variable means that variable has the given value on all paths. -/
structure ConstantPropagationLattice where
  Data : Option VarValue
  deriving DecidableEq, Repr

/-- Result of `join`, reporting whether the receiver changed. -/
inductive LatticeJoinEffect where
  | Unchanged
  | Changed
  deriving DecidableEq, Repr

namespace ConstantPropagationLattice

/-- `bottom()` from the source: absent data. -/
def bottom : ConstantPropagationLattice := ⟨none⟩

/-- `top()` from the source: the sentinel `VarValue{nullptr, 0}`. -/
def top : ConstantPropagationLattice := ⟨some ⟨none, 0⟩⟩

/-- A lattice element recording that variable `v` has value `n`; matches the
construction `ConstantPropagationLattice{{{Var, Value}}}` in the transfer
function, whose `Var` is non-null (`assert(Var != nullptr)`). -/
def known (v : Nat) (n : Int) : ConstantPropagationLattice := ⟨some ⟨some v, n⟩⟩

/-- `join` from the source.  The C++ method mutates the receiver and returns
the effect; we return the pair (new receiver value, effect), preserving the
exact test order of the source. -/
def join (self other : ConstantPropagationLattice) :
    ConstantPropagationLattice × LatticeJoinEffect :=
  if self = other ∨ other = bottom ∨ self = top then
    (self, LatticeJoinEffect.Unchanged)
  else if self = bottom then
    (other, LatticeJoinEffect.Changed)
  else
    (top, LatticeJoinEffect.Changed)

end ConstantPropagationLattice

/-- Statement classification, mirroring the dispatch of
`ConstantPropagationAnalysis::transfer` on the matcher's bound nodes.  The
`Option Int` carries the result of `EvaluateAsInt` on the initializer/RHS:
`some n` when the expression is a compile-time-constant integer `n`, `none`
otherwise.  `other` covers every statement the matcher does not match. -/
inductive Stmt where
  | declInit (var : Nat) (init : Option Int)
  | simpleAssign (var : Nat) (rhs : Option Int)
  | compoundAssign (var : Nat)
  | other
  deriving DecidableEq, Repr

open ConstantPropagationLattice in
/-- The transfer function from the source: declaration with constant
initializer or constant-RHS simple assignment yields a known element,
non-constant initializer/RHS yields top, compound assignment yields top, and
an unmatched statement leaves the element unchanged. -/
def transfer (S : Stmt) (Element : ConstantPropagationLattice) :
    ConstantPropagationLattice :=
  match S with
  | Stmt.declInit v i =>
      match i with
      | some n => known v n
      | none => top
  | Stmt.simpleAssign v r =>
      match r with
      | some n => known v n
      | none => top
  | Stmt.compoundAssign _ => top
  | Stmt.other => Element

/-- `initialElement()` from the source: bottom. -/
def initialElement : ConstantPropagationLattice :=
  ConstantPropagationLattice.bottom

namespace ConstantPropagationLattice

theorem bottom_ne_top : bottom ≠ top := by decide

/-- Characterisation of the value component of `join` by the source's tests. -/
theorem join_fst (a b : ConstantPropagationLattice) :
    (a.join b).1 =
      if a = b ∨ b = bottom ∨ a = top then a
      else if a = bottom then b
      else top := by
  unfold join
  split_ifs <;> rfl

/-- Characterisation of the effect component of `join`. -/
theorem join_snd (a b : ConstantPropagationLattice) :
    (a.join b).2 =
      if a = b ∨ b = bottom ∨ a = top then LatticeJoinEffect.Unchanged
      else LatticeJoinEffect.Changed := by
  unfold join
  split_ifs <;> rfl

theorem join_self (a : ConstantPropagationLattice) : (a.join a).1 = a := by
  rw [join_fst]; simp

theorem join_bottom_right (a : ConstantPropagationLattice) :
    (a.join bottom).1 = a := by
  rw [join_fst]; simp

theorem join_bottom_left (a : ConstantPropagationLattice) :
    (bottom.join a).1 = a := by
  rw [join_fst]
  by_cases h : bottom = a
  · simp [h]
  · simp [h, Ne.symm h, bottom_ne_top]

theorem join_top_left (a : ConstantPropagationLattice) :
    (top.join a).1 = top := by
  rw [join_fst]; simp

theorem join_top_right (a : ConstantPropagationLattice) :
    (a.join top).1 = top := by
  rw [join_fst]
  by_cases h : a = top
  · simp [h]
  · simp [h, Ne.symm bottom_ne_top]

theorem join_middle (a b : ConstantPropagationLattice)
    (ha : a ≠ bottom) (hb : b ≠ bottom) (hab : a ≠ b) :
    (a.join b).1 = top := by
  rw [join_fst]
  by_cases hat : a = top
  · simp [hat, hab, hb]
  · simp [hab, hb, hat, ha]

/-- The value of a join is one of the two operands or top. -/
theorem join_val_cases (a b : ConstantPropagationLattice) :
    (a.join b).1 = a ∨ (a.join b).1 = b ∨ (a.join b).1 = top := by
  rw [join_fst]
  split_ifs <;> simp

/-- The lattice order induced by `join`: `a ⊑ b` when joining `b` into `a`
yields `b`. -/
abbrev le (a b : ConstantPropagationLattice) : Prop := (a.join b).1 = b

end ConstantPropagationLattice

/-- Whether a statement matches one of the three transfer rules (the matcher
of `ConstantPropagationAnalysis::transfer` produced a match). -/
def matchesRule : Stmt → Bool
  | Stmt.other => false
  | _ => true

/-- Lattice elements reachable via `bottom()`, `top()`, `join`, or any
transfer-function output on a reachable input. -/
inductive Reachable : ConstantPropagationLattice → Prop where
  | bot : Reachable ConstantPropagationLattice.bottom
  | top : Reachable ConstantPropagationLattice.top
  | join {a b : ConstantPropagationLattice} :
      Reachable a → Reachable b → Reachable (a.join b).1
  | transfer (s : Stmt) {e : ConstantPropagationLattice} :
      Reachable e → Reachable (transfer s e)

/-- Modelled from the spec: the control-flow graph consumed by the fixpoint
engine (the engine itself lives in clang's DataflowAnalysis framework, which
is not among the provided sources).  Block 0 is the entry block; `blocks`
lists each block's statements in source order and `preds` its predecessors. -/
structure Cfg where
  blocks : List (List Stmt)
  preds : List (List Nat)

/-- Modelled from the spec: join of a list of predecessor exit elements,
starting from bottom. -/
def joinAll (es : List ConstantPropagationLattice) :
    ConstantPropagationLattice :=
  es.foldl (fun a b => (a.join b).1) ConstantPropagationLattice.bottom

/-- Modelled from the spec: a block's entry element is the caller-supplied
initial element (bottom) for the entry block, and the join of the
predecessors' exit elements otherwise. -/
def blockEntry (cfg : Cfg) (exits : List ConstantPropagationLattice)
    (i : Nat) : ConstantPropagationLattice :=
  if i = 0 then initialElement
  else joinAll ((cfg.preds.getD i []).map
    (fun j => exits.getD j ConstantPropagationLattice.bottom))

/-- Modelled from the spec: fold the transfer function across a block's
statements in source order. -/
def foldBlock (stmts : List Stmt) (e : ConstantPropagationLattice) :
    ConstantPropagationLattice :=
  stmts.foldl (fun acc s => transfer s acc) e

/-- Modelled from the spec: recompute every block's exit element from the
current exit elements (one round of chaotic iteration; the spec states the
final fixpoint is independent of processing order). -/
def engineStep (cfg : Cfg) (exits : List ConstantPropagationLattice) :
    List ConstantPropagationLattice :=
  (List.range cfg.blocks.length).map
    (fun i => foldBlock (cfg.blocks.getD i []) (blockEntry cfg exits i))

/-- Modelled from the spec: iterate the engine `k` rounds from all-bottom. -/
def runEngine (cfg : Cfg) (k : Nat) : List ConstantPropagationLattice :=
  (engineStep cfg)^[k]
    (List.replicate cfg.blocks.length ConstantPropagationLattice.bottom)

/-- Modelled from the spec: the lattice element at the program point right
after the first `k` statements of block `i` (equivalently, immediately before
statement `k` of that block), given the blocks' exit elements. -/
def pointState (cfg : Cfg) (exits : List ConstantPropagationLattice)
    (i k : Nat) : ConstantPropagationLattice :=
  foldBlock ((cfg.blocks.getD i []).take k) (blockEntry cfg exits i)

/-- Variable identity used for `target` in the branch scenarios. -/
def target : Nat := 0

/-- CFG of the `SameAssignmentInBranches` test program: `int target;` (an
unmatched declaration without initializer, hence `other`) in the entry block,
`target = 2;` in each branch, and `(void)0;` in the merge block. -/
def sameAssignCfg : Cfg where
  blocks := [[Stmt.other],
             [Stmt.simpleAssign target (some 2)],
             [Stmt.simpleAssign target (some 2)],
             [Stmt.other]]
  preds := [[], [0], [0], [1, 2]]

/-- Exit elements of `sameAssignCfg` after four engine rounds. -/
def sameAssignExits : List ConstantPropagationLattice := runEngine sameAssignCfg 4

/-- CFG of the `DifferentAssignmentInBranches` test program: as above but
with `target = 1;` and `target = 2;` in the two branches. -/
def diffAssignCfg : Cfg where
  blocks := [[Stmt.other],
             [Stmt.simpleAssign target (some 1)],
             [Stmt.simpleAssign target (some 2)],
             [Stmt.other]]
  preds := [[], [0], [0], [1, 2]]

/-- Exit elements of `diffAssignCfg` after four engine rounds. -/
def diffAssignExits : List ConstantPropagationLattice := runEngine diffAssignCfg 4

namespace ConstantPropagationLattice

theorem known_ne_bottom (v : Nat) (n : Int) : known v n ≠ bottom := by
  simp [known, bottom]

theorem known_ne_top (v : Nat) (n : Int) : known v n ≠ top := by
  simp [known, top]

theorem join_comm_val (a b : ConstantPropagationLattice) :
    (a.join b).1 = (b.join a).1 := by
  by_cases hab : a = b
  · subst hab; rfl
  by_cases hb : b = bottom
  · subst hb; rw [join_bottom_right, join_bottom_left]
  by_cases ha : a = bottom
  · subst ha; rw [join_bottom_left, join_bottom_right]
  · rw [join_middle a b ha hb hab, join_middle b a hb ha (Ne.symm hab)]

theorem join_assoc_val (a b c : ConstantPropagationLattice) :
    (((a.join b).1).join c).1 = (a.join ((b.join c).1)).1 := by
  by_cases ha : a = bottom
  · subst ha; rw [join_bottom_left, join_bottom_left]
  by_cases hb : b = bottom
  · subst hb; rw [join_bottom_right, join_bottom_left]
  by_cases hc : c = bottom
  · subst hc; rw [join_bottom_right, join_bottom_right]
  by_cases hab : a = b
  · subst hab
    rw [join_self]
    by_cases hac : a = c
    · subst hac; rw [join_self, join_self]
    · rw [join_middle a c ha hc hac, join_top_right]
  by_cases hbc : b = c
  · subst hbc
    rw [join_self, join_middle a b ha hb hab, join_top_left]
  · rw [join_middle a b ha hb hab, join_top_left,
        join_middle b c hb hc hbc, join_top_right]

theorem join_changed_iff (A B : ConstantPropagationLattice) :
    (A.join B).2 = LatticeJoinEffect.Changed ↔ (A.join B).1 ≠ A := by
  rw [join_snd, join_fst]
  split_ifs with h1 h2
  · simp
  · push_neg at h1
    simp [Ne.symm h1.1]
  · push_neg at h1
    simp [Ne.symm h1.2.2]

theorem le_join_left (A B : ConstantPropagationLattice) : le A (A.join B).1 := by
  by_cases hab : A = B
  · subst hab; rw [join_self]; exact join_self A
  by_cases hb : B = bottom
  · subst hb; rw [join_bottom_right]; exact join_self A
  by_cases ha : A = bottom
  · subst ha; rw [join_bottom_left]; exact join_bottom_left B
  · rw [join_middle A B ha hb hab]; exact join_top_right A

theorem le_join_right (A B : ConstantPropagationLattice) : le B (A.join B).1 := by
  rw [join_comm_val]; exact le_join_left B A

theorem join_least (A B : ConstantPropagationLattice) (C : ConstantPropagationLattice)
    (h1 : le A C) (h2 : le B C) : le (A.join B).1 C := by
  by_cases hab : A = B
  · subst hab; rw [join_self]; exact h1
  by_cases hb : B = bottom
  · subst hb; rw [join_bottom_right]; exact h1
  by_cases ha : A = bottom
  · subst ha; rw [join_bottom_left]; exact h2
  have hJ : (A.join B).1 = top := join_middle A B ha hb hab
  have hc : C ≠ bottom := by
    intro hcb
    subst hcb
    rw [le, join_bottom_right] at h1
    exact ha h1
  have hCtop : C = top := by
    by_cases hAC : A = C
    · by_cases hBC : B = C
      · exact absurd (hAC.trans hBC.symm) hab
      · rw [le, join_middle B C hb hc hBC] at h2
        exact h2.symm
    · rw [le, join_middle A C ha hc hAC] at h1
      exact h1.symm
  rw [hJ, hCtop]
  exact join_self top

end ConstantPropagationLattice

open ConstantPropagationLattice

/-- Every reachable element is bottom, top, or a known value with a real
(non-null) variable. -/
theorem reachable_shape (x : ConstantPropagationLattice) (h : Reachable x) :
    x = bottom ∨ x = top ∨ ∃ v n, x = known v n := by
  induction h with
  | bot => exact Or.inl rfl
  | top => exact Or.inr (Or.inl rfl)
  | @join a b _ _ iha ihb =>
      rcases join_val_cases a b with hv | hv | hv
      · rw [hv]; exact iha
      · rw [hv]; exact ihb
      · rw [hv]; exact Or.inr (Or.inl rfl)
  | @transfer s e _ ih =>
      cases s with
      | declInit v i =>
          cases i with
          | some n => exact Or.inr (Or.inr ⟨v, n, rfl⟩)
          | none => exact Or.inr (Or.inl rfl)
      | simpleAssign v r =>
          cases r with
          | some n => exact Or.inr (Or.inr ⟨v, n, rfl⟩)
          | none => exact Or.inr (Or.inl rfl)
      | compoundAssign v => exact Or.inr (Or.inl rfl)
      | other => exact ih

/-- C1 (counterexample): in the `SameAssignmentInBranches` scenario, the
lattice element at the program point before the branch is bottom, not top as
the claim states; the exit elements are a fixpoint of the engine. -/
theorem sameAssign_pre_branch_is_bottom_not_top :
    engineStep sameAssignCfg sameAssignExits = sameAssignExits ∧
    pointState sameAssignCfg sameAssignExits 0 1 = bottom ∧
    pointState sameAssignCfg sameAssignExits 0 1 ≠ top := by
  exact ⟨by decide, by decide, by decide⟩

/-- C1 (amended): in the `SameAssignmentInBranches` scenario, the pre-branch
point is bottom (the variable is declared without initializer and nothing is
tracked yet), both in-branch points are known(target, 2), and the post-merge
point is known(target, 2); the computed exit elements form a fixpoint of the
engine step. -/
theorem sameAssign_branch_points :
    engineStep sameAssignCfg sameAssignExits = sameAssignExits ∧
    pointState sameAssignCfg sameAssignExits 0 1 = bottom ∧
    pointState sameAssignCfg sameAssignExits 1 1 = known target 2 ∧
    pointState sameAssignCfg sameAssignExits 2 1 = known target 2 ∧
    pointState sameAssignCfg sameAssignExits 3 1 = known target 2 := by
  exact ⟨by decide, by decide, by decide, by decide, by decide⟩

/-- C2: transferring a declaration of an integer variable whose initializer
evaluates to the constant `n` yields known(v, n) for every incoming lattice
element; the prior element (including knowledge about any other variable) is
unconditionally overwritten. -/
theorem transfer_declInit_const (e : ConstantPropagationLattice) (v : Nat)
    (n : Int) : transfer (Stmt.declInit v (some n)) e = known v n := rfl

/-- C3: transferring a simple assignment `var = expr` yields known(var, n)
when the RHS evaluates to the constant `n`, regardless of the incoming
element, and yields top when the RHS is not a compile-time constant (e.g., a
function call); the non-constant case is a defined fallback, not an error. -/
theorem transfer_simpleAssign_cases (e : ConstantPropagationLattice) (v : Nat)
    (r : Option Int) :
    transfer (Stmt.simpleAssign v r) e =
      (match r with
       | some n => known v n
       | none => top) := by
  cases r <;> rfl

/-- C4: transferring a compound assignment yields top for every incoming
element, even when the incoming element holds a known value for the assigned
variable and the updated value is statically derivable: known(target, 1)
followed by `target += 2` yields top, not known(target, 3). -/
theorem transfer_compoundAssign_top (e : ConstantPropagationLattice) (v : Nat) :
    transfer (Stmt.compoundAssign v) e = top ∧
    transfer (Stmt.compoundAssign target) (known target 1) = top ∧
    transfer (Stmt.compoundAssign target) (known target 1) ≠ known target 3 := by
  exact ⟨rfl, rfl, by decide⟩

/-- C5: a statement that matches none of the three transfer rules leaves the
lattice element unchanged for every incoming element; the classification
failure is a defined identity transfer, not an error. -/
theorem transfer_other_identity (e : ConstantPropagationLattice) :
    transfer Stmt.other e = e := rfl

/-- C6: the value produced by `join` is idempotent, commutative and
associative, bottom is its identity and top is absorbing — for all lattice
elements, hence in particular for all reachable ones. -/
theorem join_lattice_laws :
    (∀ X : ConstantPropagationLattice, (X.join X).1 = X) ∧
    (∀ X Y : ConstantPropagationLattice, (X.join Y).1 = (Y.join X).1) ∧
    (∀ X Y Z : ConstantPropagationLattice,
      (((X.join Y).1).join Z).1 = (X.join ((Y.join Z).1)).1) ∧
    (∀ X : ConstantPropagationLattice, (bottom.join X).1 = X) ∧
    (∀ X : ConstantPropagationLattice, (top.join X).1 = top) :=
  ⟨join_self, join_comm_val, join_assoc_val, join_bottom_left, join_top_left⟩

/-- C7: joining two known-value elements yields that same known value when
they agree on variable and value, and top when they differ; accordingly, in
the branch-merge scenarios the post-merge point is top when the two arms
assigned different constants and known(target, 2) when both arms assigned 2. -/
theorem join_known_known (v1 v2 : Nat) (n1 n2 : Int) :
    ((known v1 n1).join (known v2 n2)).1 =
      (if known v1 n1 = known v2 n2 then known v1 n1 else top) ∧
    pointState diffAssignCfg diffAssignExits 3 1 = top ∧
    engineStep diffAssignCfg diffAssignExits = diffAssignExits ∧
    pointState sameAssignCfg sameAssignExits 3 1 = known target 2 := by
  refine ⟨?_, by decide, by decide, by decide⟩
  by_cases h : known v1 n1 = known v2 n2
  · rw [if_pos h, h, join_self]
  · rw [if_neg h,
        join_middle _ _ (known_ne_bottom v1 n1) (known_ne_bottom v2 n2) h]

/-- C8: `join` reports `Changed` exactly when the receiver's value after the
call differs from its value before, and the resulting value is the least
upper bound of the two original elements under the order induced by `join`. -/
theorem join_changed_iff_lub (A B : ConstantPropagationLattice) :
    ((A.join B).2 = LatticeJoinEffect.Changed ↔ (A.join B).1 ≠ A) ∧
    le A (A.join B).1 ∧ le B (A.join B).1 ∧
    (∀ C, le A C → le B C → le (A.join B).1 C) :=
  ⟨join_changed_iff A B, le_join_left A B, le_join_right A B, join_least A B⟩

/-- Witness for C8: the least-upper-bound clause applied at bottom and top. -/
theorem join_changed_iff_lub_witness :
    le ((bottom.join top).1) top :=
  (join_changed_iff_lub bottom top).2.2.2 top (by decide) (by decide)

/-- C9: every element reachable via `bottom()`, `top()`, `join`, or a
transfer output is in exactly one of the three states bottom, top, or
known-value; a known value always carries a non-null variable and is never
equal to top or to bottom, and bottom and top are distinct. -/
theorem reachable_three_states (x : ConstantPropagationLattice)
    (h : Reachable x) :
    (x = bottom ∨ x = top ∨ ∃ v n, x = known v n) ∧
    bottom ≠ top ∧
    (∀ v n, known v n ≠ top ∧ known v n ≠ bottom) :=
  ⟨reachable_shape x h, bottom_ne_top,
   fun v n => ⟨known_ne_top v n, known_ne_bottom v n⟩⟩

/-- Witness for C9: instantiated at the reachable element known(0, 1),
produced as a transfer output from bottom. -/
theorem reachable_three_states_witness :
    (known 0 1 = bottom ∨ known 0 1 = top ∨ ∃ v n, known 0 1 = known v n) ∧
    bottom ≠ top ∧
    (∀ v n, known v n ≠ top ∧ known v n ≠ bottom) :=
  reachable_three_states (known 0 1)
    (Reachable.transfer (Stmt.simpleAssign 0 (some 1)) Reachable.bot)

/-- C10: on a statement matching one of the three transfer rules the output
is independent of the incoming element, and together with identity on
unmatched statements the transfer function is monotone for the order induced
by `join`. -/
theorem transfer_const_on_match_and_monotone :
    (∀ s e1 e2, matchesRule s = true → transfer s e1 = transfer s e2) ∧
    (∀ s a b, le a b → le (transfer s a) (transfer s b)) := by
  constructor
  · intro s e1 e2 hm
    cases s with
    | declInit v i => rfl
    | simpleAssign v r => rfl
    | compoundAssign v => rfl
    | other => simp [matchesRule] at hm
  · intro s a b hab
    cases s with
    | declInit v i => cases i <;> exact join_self _
    | simpleAssign v r => cases r <;> exact join_self _
    | compoundAssign v => exact join_self _
    | other => exact hab

/-- Witness for C10: a matched statement gives equal outputs on bottom and
top, and monotonicity holds at the pair bottom ⊑ top. -/
theorem transfer_const_on_match_and_monotone_witness :
    transfer (Stmt.compoundAssign 0) bottom = transfer (Stmt.compoundAssign 0) top ∧
    le (transfer Stmt.other bottom) (transfer Stmt.other top) :=
  ⟨transfer_const_on_match_and_monotone.1 (Stmt.compoundAssign 0) bottom top
     (by decide),
   transfer_const_on_match_and_monotone.2 Stmt.other bottom top (by decide)⟩

end SingleVarConstProp
